import Mathlib

/-!
Shallow embedding of the retrieve-tailor-example pipeline
(`models.py`, `document.py`, `tasks/classify.py`, `tasks/generate.py`).

Python strings are embedded as `List Char` (a Python `str` is a sequence of
code points).  `json.loads` is modelled by an executable strict JSON parser.
Filesystems are association lists from (directory, filename) to contents.
-/

set_option maxRecDepth 20000

abbrev Str := List Char

/-- Coerce a Lean string literal to the `List Char` embedding. -/
def str (s : String) : Str := s.data

/-- Lexicographic order on code points, as Python compares strings. -/
def strLe : Str → Str → Bool
  | [], _ => true
  | _ :: _, [] => false
  | a :: as, b :: bs => if a < b then true else if b < a then false else strLe as bs

/-- Python `str.lower` restricted to ASCII case mapping. -/
def lowerStr (s : Str) : Str := s.map Char.toLower

/-- `startsWithStr s t`: the string `t` occurs at the start of `s`. -/
def startsWithStr : Str → Str → Bool
  | _, [] => true
  | [], _ :: _ => false
  | a :: as, b :: bs => a == b && startsWithStr as bs

/-- Python `t in s`: substring occurrence test. -/
def containsSub : Str → Str → Bool
  | [], t => t.isEmpty
  | s@(_ :: rest), t => startsWithStr s t || containsSub rest t

/-- Python `s.endswith(t)`. -/
def endsWithStr (s t : Str) : Bool := startsWithStr s.reverse t.reverse

/-- Python `s.split(sep)` for a one-character separator (never returns `[]`). -/
def pySplit (sep : Char) : Str → List Str
  | [] => [[]]
  | c :: rest =>
    let r := pySplit sep rest
    if c == sep then [] :: r
    else
      match r with
      | h :: t => (c :: h) :: t
      | [] => [[c]]

/-- Python `s.find(c)`: index of the first occurrence, or `-1`. -/
def pyFind (c : Char) (s : Str) : Int :=
  match s.findIdx? (· == c) with
  | some i => (i : Int)
  | none => -1

/-- Python `s.rfind(c)`: index of the last occurrence, or `-1`. -/
def pyRfind (c : Char) (s : Str) : Int :=
  match s.reverse.findIdx? (· == c) with
  | some j => ((s.length - 1 - j : Nat) : Int)
  | none => -1

/-- Python `pathlib.PurePath(name).stem`: the name without its final suffix;
a suffix requires its dot to be neither the first nor the last character. -/
def pathStem (name : Str) : Str :=
  let i := pyRfind '.' name
  if 0 < i ∧ i < (name.length : Int) - 1 then name.take i.toNat else name

/-- The final segment of `url.split("/")` (Python `[-1]`; split is never empty). -/
def lastSegment (url : Str) : Str := (pySplit '/' url).getLastD []

/-! ## JSON values and a strict parser modelling Python `json.loads`. -/

inductive Json where
  | null
  | bool (b : Bool)
  | num (raw : Str)
  | str (s : Str)
  | arr (xs : List Json)
  | obj (kvs : List (Str × Json))

/-- Insert into a JSON object the way Python dicts do: an existing key keeps
its position and gets the new value, a new key is appended. -/
def objInsert : List (Str × Json) → Str → Json → List (Str × Json)
  | [], k, v => [(k, v)]
  | (k', v') :: rest, k, v =>
    if k' = k then (k', v) :: rest else (k', v') :: objInsert rest k v

/-- Association lookup in a JSON object (first match). -/
def objGet : List (Str × Json) → Str → Option Json
  | [], _ => none
  | (k', v') :: rest, k => if k' = k then some v' else objGet rest k

def isWsChar (c : Char) : Bool := c == ' ' || c == '\t' || c == '\n' || c == '\r'

def skipWs (s : Str) : Str := s.dropWhile isWsChar

def hexDigitVal (c : Char) : Option Nat :=
  if '0' ≤ c ∧ c ≤ '9' then some (c.toNat - '0'.toNat)
  else if 'a' ≤ c ∧ c ≤ 'f' then some (c.toNat - 'a'.toNat + 10)
  else if 'A' ≤ c ∧ c ≤ 'F' then some (c.toNat - 'A'.toNat + 10)
  else none

def parseHex4 : Str → Option (Nat × Str)
  | a :: b :: c :: d :: rest =>
    match hexDigitVal a, hexDigitVal b, hexDigitVal c, hexDigitVal d with
    | some x, some y, some z, some w => some (((x * 16 + y) * 16 + z) * 16 + w, rest)
    | _, _, _, _ => none
  | _ => none

/-- Body of a JSON string after its opening quote: returns the decoded
characters and the remainder after the closing quote. -/
def parseStrBody : Nat → Str → Option (Str × Str)
  | 0, _ => none
  | _, [] => none
  | fuel + 1, c :: rest =>
    if c == '"' then some ([], rest)
    else if c == '\\' then
      match rest with
      | [] => none
      | e :: rest2 =>
        let dec : Option (Char × Str) :=
          if e == '"' then some ('"', rest2)
          else if e == '\\' then some ('\\', rest2)
          else if e == '/' then some ('/', rest2)
          else if e == 'b' then some (Char.ofNat 8, rest2)
          else if e == 'f' then some (Char.ofNat 12, rest2)
          else if e == 'n' then some ('\n', rest2)
          else if e == 'r' then some ('\r', rest2)
          else if e == 't' then some ('\t', rest2)
          else if e == 'u' then
            match parseHex4 rest2 with
            | some (n, r) => some (Char.ofNat n, r)
            | none => none
          else none
        match dec with
        | some (ch, r) =>
          match parseStrBody fuel r with
          | some (cs, r2) => some (ch :: cs, r2)
          | none => none
        | none => none
    else if c.toNat < 32 then none
    else
      match parseStrBody fuel rest with
      | some (cs, r2) => some (c :: cs, r2)
      | none => none

def takeDigits (s : Str) : Str × Str := (s.takeWhile Char.isDigit, s.dropWhile Char.isDigit)

/-- Optional fraction part `.digits`. -/
def parseFracPart : Str → Option (Str × Str)
  | '.' :: r =>
    let (ds, r2) := takeDigits r
    if ds.isEmpty then none else some ('.' :: ds, r2)
  | s => some ([], s)

/-- Optional exponent part `[eE][+-]?digits`. -/
def parseExpPart : Str → Option (Str × Str)
  | c :: r =>
    if c == 'e' || c == 'E' then
      let (sgn, r1) : Str × Str :=
        match r with
        | '+' :: rr => (['+'], rr)
        | '-' :: rr => (['-'], rr)
        | _ => ([], r)
      let (ds, r2) := takeDigits r1
      if ds.isEmpty then none else some (c :: (sgn ++ ds), r2)
    else some ([], c :: r)
  | [] => some ([], [])

def parseNumTail (ip : Str) (s : Str) : Option (Str × Str) :=
  match parseFracPart s with
  | none => none
  | some (f, r1) =>
    match parseExpPart r1 with
    | none => none
    | some (e, r2) => some (ip ++ f ++ e, r2)

/-- A JSON numeric token (Python also accepts `NaN`, `Infinity`, `-Infinity`). -/
def parseNumber : Str → Option (Str × Str)
  | '-' :: s1 =>
    (match s1 with
     | 'I' :: 'n' :: 'f' :: 'i' :: 'n' :: 'i' :: 't' :: 'y' :: r => some (str "-Infinity", r)
     | '0' :: r => parseNumTail ['-', '0'] r
     | c :: r =>
       if c.isDigit ∧ c ≠ '0' then
         let (ds, r2) := takeDigits r
         parseNumTail ('-' :: c :: ds) r2
       else none
     | [] => none)
  | '0' :: r => parseNumTail ['0'] r
  | c :: r =>
    if c.isDigit ∧ c ≠ '0' then
      let (ds, r2) := takeDigits r
      parseNumTail (c :: ds) r2
    else none
  | [] => none

mutual

/-- One JSON value (leading whitespace allowed), returning the remainder. -/
def parseVal : Nat → Str → Option (Json × Str)
  | 0, _ => none
  | fuel + 1, s =>
    match skipWs s with
    | 'n' :: 'u' :: 'l' :: 'l' :: r => some (.null, r)
    | 't' :: 'r' :: 'u' :: 'e' :: r => some (.bool true, r)
    | 'f' :: 'a' :: 'l' :: 's' :: 'e' :: r => some (.bool false, r)
    | 'N' :: 'a' :: 'N' :: r => some (.num (str "NaN"), r)
    | 'I' :: 'n' :: 'f' :: 'i' :: 'n' :: 'i' :: 't' :: 'y' :: r => some (.num (str "Infinity"), r)
    | '"' :: r =>
      (match parseStrBody r.length r with
       | some (cs, r2) => some (.str cs, r2)
       | none => none)
    | '{' :: r =>
      (match skipWs r with
       | '}' :: r2 => some (.obj [], r2)
       | _ => parsePairs fuel r [])
    | '[' :: r =>
      (match skipWs r with
       | ']' :: r2 => some (.arr [], r2)
       | _ => parseElems fuel r [])
    | s' =>
      match parseNumber s' with
      | some (raw, r) => some (.num raw, r)
      | none => none

/-- Members of a JSON object after `{` (at least one pair remaining). -/
def parsePairs : Nat → Str → List (Str × Json) → Option (Json × Str)
  | 0, _, _ => none
  | fuel + 1, s, acc =>
    match skipWs s with
    | '"' :: r =>
      (match parseStrBody r.length r with
       | none => none
       | some (k, r1) =>
         match skipWs r1 with
         | ':' :: r2 =>
           (match parseVal fuel r2 with
            | none => none
            | some (v, r3) =>
              let acc' := objInsert acc k v
              match skipWs r3 with
              | ',' :: r4 => parsePairs fuel r4 acc'
              | '}' :: r4 => some (.obj acc', r4)
              | _ => none)
         | _ => none)
    | _ => none

/-- Elements of a JSON array after `[` (at least one element remaining). -/
def parseElems : Nat → Str → List Json → Option (Json × Str)
  | 0, _, _ => none
  | fuel + 1, s, acc =>
    match parseVal fuel s with
    | none => none
    | some (v, r) =>
      match skipWs r with
      | ',' :: r2 => parseElems fuel r2 (acc ++ [v])
      | ']' :: r2 => some (.arr (acc ++ [v]), r2)
      | _ => none

end

/-- Python `json.loads`: parse one value and require only whitespace after it. -/
def jsonLoads (s : Str) : Except Unit Json :=
  match parseVal (s.length + 1) s with
  | some (v, r) => if (skipWs r).isEmpty then .ok v else .error ()
  | none => .error ()

/-! ## classify.py -/

/-- Python exception values that can escape the embedded functions. -/
inductive PyErr where
  | jsonDecode
  | keyError
  | typeError
  | agentError (msg : Str)
deriving DecidableEq

/-- Python `str(e)` for the modelled exceptions. -/
def errStr : PyErr → Str
  | .jsonDecode => str "JSONDecodeError"
  | .keyError => str "KeyError"
  | .typeError => str "TypeError"
  | .agentError m => m

/-- The dict returned by `classify_paper` (values are arbitrary JSON since the
agent controls them). -/
structure CResult where
  is_real_world_application : Json
  reason : Json

def MAX_CHARS : Nat := 3000

def MIN_CHARS : Nat := 5000

/-- The fallback dict built when no brace pair is found in the raw response. -/
def parseErrorDict (raw : Str) : Json :=
  .obj [(str "is_real_world_application", .bool false),
        (str "reason", .str (str "parse error: " ++ raw.take 200))]

/-- The parse-and-extract step of `classify_paper` applied to the raw agent
response (`classify.py` lines 46-62): try `json.loads`; on failure extract
`raw[first_lbrace : last_rbrace + 1]` and `json.loads` that (an error there
escapes); with no brace pair build the parse-error dict; finally index the
resulting object at the two keys, which can raise `KeyError`/`TypeError`. -/
def parseResp (raw : Str) : Except PyErr CResult :=
  let parsed : Except PyErr Json :=
    match jsonLoads raw with
    | .ok v => .ok v
    | .error _ =>
      let s := pyFind '{' raw
      let e := pyRfind '}' raw + 1
      if s ≠ -1 ∧ e > s then
        match jsonLoads ((raw.take e.toNat).drop s.toNat) with
        | .ok v => .ok v
        | .error _ => .error .jsonDecode
      else .ok (parseErrorDict raw)
  match parsed with
  | .error e => .error e
  | .ok result =>
    match result with
    | .obj kvs =>
      match objGet kvs (str "is_real_world_application") with
      | some rwa => .ok ⟨rwa, (objGet kvs (str "reason")).getD (.str [])⟩
      | none => .error .keyError
    | _ => .error .typeError

/-- The short-circuit result for under-length inputs. -/
def shortResult : CResult :=
  ⟨.bool false, .str (str "skipped: too short (likely slides/poster)")⟩

/-- `classify_paper(text, agent)`: the outcome together with the list of
documents sent to the agent (`ask` is the agent, which may itself raise). -/
def classify_paper (text : Str) (ask : Str → Except PyErr Str) :
    Except PyErr CResult × List Str :=
  if text.length < MIN_CHARS then (.ok shortResult, [])
  else
    let truncated := text.take MAX_CHARS
    match ask truncated with
    | .error e => (.error e, [truncated])
    | .ok raw => (parseResp raw, [truncated])

/-- One ledger entry produced by `classify_all_papers` for one text file:
inside the per-item `try`, the classify result gets the `file` key added;
any exception is converted to a negative entry with an error reason. -/
structure CEntry where
  file : Str
  is_real_world_application : Json
  reason : Json

def entryFor (ask : Str → Except PyErr Str) (name content : Str) : CEntry :=
  match (classify_paper content ask).1 with
  | .ok r => ⟨name, r.is_real_world_application, r.reason⟩
  | .error e => ⟨name, .bool false, .str (str "error: " ++ errStr e)⟩

def nameLe (p q : Str × Str) : Bool := strLe p.1 q.1

/-- `sorted(md_dir.glob("*.md"))`: the `.md` files of the directory in
lexicographic filename order. -/
def mdFilesOf (files : List (Str × Str)) : List (Str × Str) :=
  (files.filter (fun p => endsWithStr p.1 (str ".md"))).mergeSort nameLe

/-- `classify_all_papers`: `files` is the text directory as (name, contents)
pairs, `oldLedger` the previous ledger contents.  Returns the result list and
the new ledger contents (the ledger file is rewritten in full). -/
def classify_all_papers (files : List (Str × Str)) (ask : Str → Except PyErr Str)
    (oldLedger : List CEntry) : List CEntry × List CEntry :=
  let results := (mdFilesOf files).map (fun p => entryFor ask p.1 p.2)
  (results, results)

/-! ## models.py -/

structure Article where
  title : Str
  authors : List Str
  venue : Str
  pdf_url : Option Str
  links : List (Str × Str)
deriving DecidableEq

/-- `dataclasses.asdict(article)` as a JSON value. -/
def Article.to_dict (a : Article) : Json :=
  .obj [(str "title", .str a.title),
        (str "authors", .arr (a.authors.map .str)),
        (str "venue", .str a.venue),
        (str "pdf_url", match a.pdf_url with | some u => .str u | none => .null),
        (str "links", .obj (a.links.map (fun p => (p.1, .str p.2))))]

def decodeJsonStr : Json → Option Str
  | .str s => some s
  | _ => none

def decodeStrList : List Json → Option (List Str)
  | [] => some []
  | x :: xs =>
    match decodeJsonStr x, decodeStrList xs with
    | some s, some r => some (s :: r)
    | _, _ => none

def decodeLinks : List (Str × Json) → Option (List (Str × Str))
  | [] => some []
  | (k, v) :: rest =>
    match decodeJsonStr v, decodeLinks rest with
    | some s, some r => some ((k, s) :: r)
    | _, _ => none

def decodeOptUrl : Json → Option (Option Str)
  | .null => some none
  | .str u => some (some u)
  | _ => none

/-- `Article.from_dict` / `cls(**d)`: requires exactly the five field keys;
shapes are decoded back into the typed record. -/
def Article.from_dict (j : Json) : Option Article :=
  match j with
  | .obj kvs =>
    if kvs.length = 5 then
      match objGet kvs (str "title"), objGet kvs (str "authors"),
            objGet kvs (str "venue"), objGet kvs (str "pdf_url"),
            objGet kvs (str "links") with
      | some t, some au, some v, some pu, some lk =>
        match decodeJsonStr t,
              (match au with | .arr xs => decodeStrList xs | _ => none),
              decodeJsonStr v, decodeOptUrl pu,
              (match lk with | .obj ks => decodeLinks ks | _ => none) with
        | some t2, some au2, some v2, some pu2, some lk2 =>
          some ⟨t2, au2, v2, pu2, lk2⟩
        | _, _, _, _, _ => none
      | _, _, _, _, _ => none
    else none
  | _ => none

/-- A store of JSON metadata files, keyed by path. -/
abbrev JFs := List (Str × Json)

def jfsGet : JFs → Str → Option Json
  | [], _ => none
  | (k, v) :: rest, key => if k = key then some v else jfsGet rest key

/-- `Article.save`: writes the JSON serialization of `to_dict` at `path`. -/
def Article.save (a : Article) (fs : JFs) (path : Str) : JFs :=
  (path, a.to_dict) :: fs

/-- `Article.load`: reads the JSON value at `path` and applies `from_dict`. -/
def Article.load (fs : JFs) (path : Str) : Option Article :=
  match jfsGet fs path with
  | some j => Article.from_dict j
  | none => none

/-! ## document.py -/

/-- A filesystem of text files: (directory, filename) to contents. -/
abbrev Fs := List ((Str × Str) × Str)

def fsGet : Fs → Str × Str → Option Str
  | [], _ => none
  | (k, v) :: rest, key => if k = key then some v else fsGet rest key

/-- `path.write_text`: the new binding shadows any previous one. -/
def fsSet (fs : Fs) (k : Str × Str) (v : Str) : Fs := (k, v) :: fs

def fsMem (fs : Fs) (k : Str × Str) : Bool := (fsGet fs k).isSome

/-- The spec's `ResolutionError` (raised as `ValueError` in the source). -/
inductive ResolveErr where
  | resolution (msg : Str)
deriving DecidableEq

/-- The cached-text filename for a source URL: stem of the final path
segment, with the `.md` extension. -/
def cachedName (u : Str) : Str := pathStem (lastSegment u) ++ str ".md"

/-- `resolve_article_text(article, md_dir)`: `fs` is the filesystem; `fetch`
models `fetch_and_extract` (network download plus text extraction).  Returns
the outcome together with the list of URLs fetched.  The cache is consulted
only when a cache directory is given and the article has a truthy source URL;
with no source URL at all a `ResolutionError` is raised. -/
def resolve_article_text (a : Article) (md_dir : Option Str) (fs : Fs)
    (fetch : Str → Str) : Except ResolveErr Str × List Str :=
  let cached : Option Str :=
    match md_dir, a.pdf_url with
    | some d, some u => if u ≠ [] then fsGet fs (d, cachedName u) else none
    | _, _ => none
  match cached with
  | some content => (.ok content, [])
  | none =>
    match a.pdf_url with
    | none =>
      (.error (.resolution
        (str "Article " ++ a.title ++ str " has no pdf_url and no cached .md")), [])
    | some u => (.ok (fetch u), [u])

/-! ## tasks/generate.py -/

def LINK_KEYWORDS : List Str :=
  [str "doi", str "acm", str "springer", str "elsevier", str "ieee", str "online"]

/-- `_best_link`: first keyword-labelled link, else first link whose
lowercased label is not "pdf", else the first link, else `None`. -/
def best_link (a : Article) : Option Str :=
  match a.links.find? (fun lu => LINK_KEYWORDS.any (fun k => containsSub (lowerStr lu.1) k)) with
  | some lu => some lu.2
  | none =>
    match a.links.find? (fun lu => !(lowerStr lu.1 == str "pdf")) with
    | some lu => some lu.2
    | none =>
      match a.links with
      | [] => none
      | lu :: _ => some lu.2

def NO_LINK : Str := str "_No link available_"

/-- The link line of `_format_metadata_block`: `f"- Link: {link}" if link
else "- Link: _No link available_"` (an empty-string link is falsy). -/
def linkLine (a : Article) : Str :=
  match best_link a with
  | some l => if l ≠ [] then str "- Link: " ++ l else str "- Link: " ++ NO_LINK
  | none => str "- Link: " ++ NO_LINK

/-- The canonical link text appearing after `- Link: ` in the metadata
block. -/
def chosenLink (a : Article) : Str :=
  match best_link a with
  | some l => if l ≠ [] then l else NO_LINK
  | none => NO_LINK

def joinNl : List Str → Str
  | [] => []
  | [x] => x
  | x :: rest => x ++ '\n' :: joinNl rest

def commaJoin : List Str → Str
  | [] => []
  | [x] => x
  | x :: rest => x ++ str ", " ++ commaJoin rest

/-- `_format_metadata_block`. -/
def format_metadata_block (a : Article) : Str :=
  joinNl [[],
          str "I already know the following metadata for this paper — use it directly:",
          str "- Title: " ++ a.title,
          str "- Authors: " ++ commaJoin a.authors,
          str "- Venue: " ++ a.venue,
          linkLine a]

/-- Spec-side restatement of the link-priority rule, following the spec's
words: (a) the first link whose label matches a scholarly keyword
(case-insensitive), else (b) the first link whose label is not the word
"pdf" (read case-insensitively, as in (a)), else (c) the first link of any
kind, else (d) the sentinel. -/
def specChosenLink (a : Article) : Str :=
  match a.links.find? (fun lu => LINK_KEYWORDS.any (fun k => containsSub (lowerStr lu.1) k)) with
  | some lu => lu.2
  | none =>
    match a.links.find? (fun lu => !(lowerStr lu.1 == str "pdf")) with
    | some lu => lu.2
    | none =>
      match a.links with
      | lu :: _ => lu.2
      | [] => NO_LINK

/-- One ledger entry as read back by `generate_all_examples`. -/
structure GenEntry where
  file : Str
  is_real_world_application : Bool

/-- The directory parameters of `generate_all_examples`. -/
structure GenCfg where
  articles_dir : Str
  md_dir : Str
  output_dir : Str

/-- One iteration of the `generate_all_examples` loop on filename `f` with
1-based index `i`: skip when the output exists (appending its path), skip
when the article JSON is missing, skip (exception caught) when the article
fails to decode or the text fails to resolve; otherwise call the agent once,
write the output and append its path.  `dec` models `Article.load` applied
to the file contents, `agentGen` models `generate_example` (the single agent
call), `fetch` models `fetch_and_extract`.  Returns the new filesystem, the
number of agent calls made, and the appended path if any. -/
def stepGen (cfg : GenCfg) (dec : Str → Option Article) (fetch : Str → Str)
    (agentGen : Article → Str → Nat → Str) (fs : Fs) (f : Str) (i : Nat) :
    Fs × Nat × Option (Str × Str) :=
  let outKey := (cfg.output_dir, f)
  if fsMem fs outKey then (fs, 0, some outKey)
  else
    match fsGet fs (cfg.articles_dir, pathStem f ++ str ".json") with
    | none => (fs, 0, none)
    | some content =>
      match dec content with
      | none => (fs, 0, none)
      | some article =>
        match (resolve_article_text article (some cfg.md_dir) fs fetch).1 with
        | .error _ => (fs, 0, none)
        | .ok text => (fsSet fs outKey (agentGen article text i), 1, some outKey)

/-- The loop of `generate_all_examples` over the qualifying filenames. -/
def goGen (cfg : GenCfg) (dec : Str → Option Article) (fetch : Str → Str)
    (agentGen : Article → Str → Nat → Str) :
    List Str → Nat → Fs → Fs × Nat × List (Str × Str)
  | [], _, fs => (fs, 0, [])
  | f :: rest, i, fs =>
    let r1 := stepGen cfg dec fetch agentGen fs f i
    let r2 := goGen cfg dec fetch agentGen rest (i + 1) r1.1
    (r2.1, r1.2.1 + r2.2.1,
      match r1.2.2 with
      | some k => k :: r2.2.2
      | none => r2.2.2)

/-- `generate_all_examples`: filter the ledger entries to the positively
classified ones and run the loop from index 1.  Returns the final
filesystem, the total number of agent calls, and the returned path list. -/
def generate_all_examples (cfg : GenCfg) (dec : Str → Option Article)
    (fetch : Str → Str) (agentGen : Article → Str → Nat → Str)
    (entries : List GenEntry) (fs : Fs) : Fs × Nat × List (Str × Str) :=
  goGen cfg dec fetch agentGen
    ((entries.filter (·.is_real_world_application)).map (·.file)) 1 fs

/-! ## Fixtures for concrete evaluations -/

/-- An article whose only link is labelled "PDF". -/
def artOnlyPdf : Article :=
  ⟨str "T", [str "A"], str "V", some (str "http://x/p.pdf"),
   [(str "PDF", str "http://x/p.pdf")]⟩

/-- An article with a PDF link first and a DOI link second. -/
def artPdfDoi : Article :=
  ⟨str "T", [str "A"], str "V", some (str "http://x/p.pdf"),
   [(str "PDF", str "http://x/p.pdf"), (str "DOI", str "http://doi.org/y")]⟩

/-- A demonstration article for the generate-stage fixtures. -/
def demoArt : Article :=
  ⟨str "T", [str "A"], str "V", some (str "http://x/p.pdf"), []⟩

def demoCfg : GenCfg := ⟨str "arts", str "md", str "out"⟩

def demoDec : Str → Option Article :=
  fun s => if s = str "AJ" then some demoArt else none

def demoFs : Fs :=
  [((str "arts", str "p.json"), str "AJ"), ((str "md", str "p.md"), str "TEXT")]

def demoEntries : List GenEntry :=
  [⟨str "p.md", true⟩, ⟨str "q.md", true⟩, ⟨str "r.md", false⟩]

/-- The generate loop is blocked on filename `f` in filesystem `fs`: the
article JSON is missing, or it fails to decode, or its text fails to
resolve.  In each of these cases the loop body performs no agent call and
writes nothing. -/
def genBlocked (cfg : GenCfg) (dec : Str → Option Article) (fetch : Str → Str)
    (fs : Fs) (f : Str) : Prop :=
  fsGet fs (cfg.articles_dir, pathStem f ++ str ".json") = none ∨
  (∃ content, fsGet fs (cfg.articles_dir, pathStem f ++ str ".json") = some content ∧
    dec content = none) ∨
  (∃ content article e,
    fsGet fs (cfg.articles_dir, pathStem f ++ str ".json") = some content ∧
    dec content = some article ∧
    (resolve_article_text article (some cfg.md_dir) fs fetch).1 = .error e)

/-! ## Theorems -/

/-- Claim C8: for every input text shorter than `MIN_CHARS`, `classify_paper`
returns `is_real_world_application = false` with a reason beginning
"skipped: too short", and performs zero agent calls. -/
theorem classify_short_circuit (text : Str) (ask : Str → Except PyErr Str)
    (h : text.length < MIN_CHARS) :
    classify_paper text ask = (.ok shortResult, []) ∧
    shortResult.is_real_world_application = .bool false ∧
    ∃ rest, shortResult.reason = .str (str "skipped: too short" ++ rest) := by
  refine ⟨?_, rfl, ⟨str " (likely slides/poster)", ?_⟩⟩
  · simp [classify_paper, h]
  · rfl

/-- Witness for C8 at a concrete 3-character text. -/
theorem classify_short_circuit_witness :
    classify_paper (str "abc") (fun _ => .ok []) = (.ok shortResult, []) := by
  have h := classify_short_circuit (str "abc") (fun _ => .ok []) (by decide)
  exact h.1

/-- Claim C9: whenever `classify_paper` reaches the agent (text length at
least `MIN_CHARS = 5000`), the document sent is exactly `text[:MAX_CHARS]`,
which has exactly `MAX_CHARS = 3000` characters and is never the full
text. -/
theorem classify_truncates (text : Str) (ask : Str → Except PyErr Str)
    (h : MIN_CHARS ≤ text.length) :
    (classify_paper text ask).2 = [text.take MAX_CHARS] ∧
    (text.take MAX_CHARS).length = MAX_CHARS ∧
    text.take MAX_CHARS ≠ text := by
  have hlt : ¬ text.length < MIN_CHARS := not_lt.mpr h
  have hmm : MAX_CHARS ≤ text.length := by
    simp only [MAX_CHARS, MIN_CHARS] at *
    omega
  have hlen : (text.take MAX_CHARS).length = MAX_CHARS := by
    rw [List.length_take]
    omega
  refine ⟨?_, hlen, ?_⟩
  · rcases hask : ask (text.take MAX_CHARS) with e | raw <;>
      simp [classify_paper, hlt, hask]
  · intro heq
    have hl := congrArg List.length heq
    rw [hlen] at hl
    simp only [MAX_CHARS, MIN_CHARS] at hl h
    omega

/-- Witness for C9 at a concrete 5000-character text. -/
theorem classify_truncates_witness :
    (classify_paper (List.replicate 5000 'a') (fun _ => .ok [])).2 =
      [(List.replicate 5000 'a' : Str).take MAX_CHARS] ∧
    ((List.replicate 5000 'a' : Str).take MAX_CHARS).length = MAX_CHARS := by
  have h := classify_truncates (List.replicate 5000 'a') (fun _ => .ok [])
    (by rw [List.length_replicate]; norm_num [MIN_CHARS])
  exact ⟨h.1, h.2.1⟩

/-- Claim C6: for every article with no source URL, `resolve_article_text`
fails with a `ResolutionError` (regardless of the cache directory and its
contents) and in particular never returns an empty string. -/
theorem resolve_no_url_fails (a : Article) (md_dir : Option Str) (fs : Fs)
    (fetch : Str → Str) (h : a.pdf_url = none) :
    resolve_article_text a md_dir fs fetch =
      (.error (.resolution
        (str "Article " ++ a.title ++ str " has no pdf_url and no cached .md")), []) ∧
    (resolve_article_text a md_dir fs fetch).1 ≠ .ok [] := by
  have hr : resolve_article_text a md_dir fs fetch =
      (.error (.resolution
        (str "Article " ++ a.title ++ str " has no pdf_url and no cached .md")), []) := by
    cases md_dir <;> simp [resolve_article_text, h]
  refine ⟨hr, ?_⟩
  rw [hr]
  simp

/-- Witness for C6 at a concrete article with `pdf_url = none` and an empty
cache directory. -/
theorem resolve_no_url_fails_witness :
    resolve_article_text ⟨str "T", [], str "V", none, []⟩ (some (str "md")) []
        (fun _ => []) =
      (.error (.resolution
        (str "Article T has no pdf_url and no cached .md")), []) := by
  have h := resolve_no_url_fails ⟨str "T", [], str "V", none, []⟩
    (some (str "md")) [] (fun _ => []) rfl
  exact h.1

/-- Claim C2: for every article with a (truthy) source URL and a cache
directory, if the cache holds a file named after the stem of the URL's final
path segment then `resolve_article_text` returns exactly that file's contents
with zero fetches; if no such cached file exists it performs exactly one
fetch, of the source URL, and returns the extracted text. -/
theorem resolve_cache_precedence (a : Article) (u d : Str) (fs : Fs)
    (fetch : Str → Str) (hu : a.pdf_url = some u) (hne : u ≠ []) :
    (∀ content, fsGet fs (d, cachedName u) = some content →
        resolve_article_text a (some d) fs fetch = (.ok content, [])) ∧
    (fsGet fs (d, cachedName u) = none →
        resolve_article_text a (some d) fs fetch = (.ok (fetch u), [u])) := by
  constructor
  · intro content hc
    simp [resolve_article_text, hu, hne, hc]
  · intro hc
    simp [resolve_article_text, hu, hne, hc]

/-- Witness for C2: a concrete article resolved once from the cache and once
by fetching. -/
theorem resolve_cache_precedence_witness :
    resolve_article_text ⟨str "T", [], str "V", some (str "http://x/p.pdf"), []⟩
        (some (str "md")) [((str "md", str "p.md"), str "CACHED")]
        (fun _ => str "FETCHED") = (.ok (str "CACHED"), []) ∧
    resolve_article_text ⟨str "T", [], str "V", some (str "http://x/p.pdf"), []⟩
        (some (str "md")) [] (fun _ => str "FETCHED") =
      (.ok (str "FETCHED"), [str "http://x/p.pdf"]) := by
  have h1 := resolve_cache_precedence
    ⟨str "T", [], str "V", some (str "http://x/p.pdf"), []⟩
    (str "http://x/p.pdf") (str "md") [((str "md", str "p.md"), str "CACHED")]
    (fun _ => str "FETCHED") rfl (by decide)
  have h2 := resolve_cache_precedence
    ⟨str "T", [], str "V", some (str "http://x/p.pdf"), []⟩
    (str "http://x/p.pdf") (str "md") [] (fun _ => str "FETCHED") rfl (by decide)
  exact ⟨h1.1 (str "CACHED") (by decide), h2.2 (by decide)⟩

/-- Claim C4 counterexample: for the concrete article whose only link is
labelled "PDF", the canonical link chosen for the metadata block is the PDF
URL itself, not the sentinel "_No link available_" the claim asserts. -/
theorem only_pdf_sentinel_cex :
    chosenLink artOnlyPdf = str "http://x/p.pdf" ∧
    chosenLink artOnlyPdf ≠ NO_LINK ∧
    linkLine artOnlyPdf = str "- Link: http://x/p.pdf" := by
  refine ⟨rfl, ?_, rfl⟩
  decide

/-- Claim C4 amended: for every Article whose links mapping contains only a
single link labelled "PDF" with a non-empty URL, the canonical link chosen
for the metadata block is that PDF URL itself (the first-link fallback), not
the sentinel. -/
theorem only_pdf_first_link (url : Str) (a : Article) (hne : url ≠ [])
    (h : a.links = [(str "PDF", url)]) :
    best_link a = some url ∧ chosenLink a = url ∧
    linkLine a = str "- Link: " ++ url := by
  have hb : best_link a = some url := by
    unfold best_link
    rw [h]
    rfl
  refine ⟨hb, ?_, ?_⟩
  · unfold chosenLink
    rw [hb]
    simp [hne]
  · unfold linkLine
    rw [hb]
    simp [hne]

/-- Witness for the amended C4 at the concrete article. -/
theorem only_pdf_first_link_witness :
    best_link artOnlyPdf = some (str "http://x/p.pdf") ∧
    chosenLink artOnlyPdf = str "http://x/p.pdf" := by
  have h := only_pdf_first_link (str "http://x/p.pdf") artOnlyPdf (by decide) rfl
  exact ⟨h.1, h.2.1⟩

/-- Claim C5: for every Article whose link URLs are non-empty, the code's
canonical-link choice equals the spec's priority rule (keyword link, else
first link not labelled "pdf", else first link, else the sentinel); and on
the concrete article with a PDF link and a DOI link the DOI URL is chosen. -/
theorem link_priority_spec (a : Article) (hne : ∀ p ∈ a.links, p.2 ≠ []) :
    chosenLink a = specChosenLink a ∧
    chosenLink artPdfDoi = str "http://doi.org/y" := by
  refine ⟨?_, by decide⟩
  unfold chosenLink specChosenLink best_link
  cases hf : a.links.find?
      (fun lu => LINK_KEYWORDS.any (fun k => containsSub (lowerStr lu.1) k)) with
  | some lu =>
    have hm := List.mem_of_find?_eq_some hf
    simp [hne lu hm]
  | none =>
    cases hg : a.links.find? (fun lu => !(lowerStr lu.1 == str "pdf")) with
    | some lu =>
      have hm := List.mem_of_find?_eq_some hg
      simp [hne lu hm]
    | none =>
      cases hl : a.links with
      | nil => rfl
      | cons lu rest =>
        have hm : lu ∈ a.links := by rw [hl]; exact List.mem_cons_self lu rest
        simp [hne lu hm]

/-- Witness for C5 at the concrete PDF+DOI article. -/
theorem link_priority_spec_witness :
    chosenLink artPdfDoi = specChosenLink artPdfDoi ∧
    chosenLink artPdfDoi = str "http://doi.org/y" := by
  have h := link_priority_spec artPdfDoi (by decide)
  exact ⟨h.1, h.2⟩

/-- Decoding inverts the string-list encoding used by `to_dict`. -/
theorem decodeStrList_map (l : List Str) : decodeStrList (l.map .str) = some l := by
  induction l with
  | nil => rfl
  | cons x xs ih => simp [decodeStrList, decodeJsonStr, ih]

/-- Decoding inverts the links encoding used by `to_dict`. -/
theorem decodeLinks_map (l : List (Str × Str)) :
    decodeLinks (l.map fun p => (p.1, Json.str p.2)) = some l := by
  induction l with
  | nil => rfl
  | cons x xs ih => simp [decodeLinks, decodeJsonStr, ih]

/-- Claim C10: `Article.from_dict` inverts `Article.to_dict`, and saving an
Article to its JSON metadata file then loading it back yields an equal
record — title, author order, venue, optional source URL and link order are
all preserved. -/
theorem article_roundtrip (a : Article) (fs : JFs) (path : Str) :
    Article.from_dict (Article.to_dict a) = some a ∧
    Article.load (Article.save a fs path) path = some a := by
  have h : Article.from_dict (Article.to_dict a) = some a := by
    obtain ⟨t, au, v, pu, lk⟩ := a
    have h1 : str "title" ≠ str "authors" := by decide
    have h2 : str "title" ≠ str "venue" := by decide
    have h3 : str "title" ≠ str "pdf_url" := by decide
    have h4 : str "title" ≠ str "links" := by decide
    have h5 : str "authors" ≠ str "venue" := by decide
    have h6 : str "authors" ≠ str "pdf_url" := by decide
    have h7 : str "authors" ≠ str "links" := by decide
    have h8 : str "venue" ≠ str "pdf_url" := by decide
    have h9 : str "venue" ≠ str "links" := by decide
    have h10 : str "pdf_url" ≠ str "links" := by decide
    cases pu <;>
      simp [Article.to_dict, Article.from_dict, objGet, decodeJsonStr,
        decodeOptUrl, decodeStrList_map, decodeLinks_map,
        h1, h2, h3, h4, h5, h6, h7, h8, h9, h10]
  refine ⟨h, ?_⟩
  simp [Article.load, Article.save, jfsGet, h]

/-- Claim C1 counterexample: with a 5000-character text and an agent
response `x{oops}`, direct parsing fails, the brace-extracted substring
`{oops}` also fails to parse, and the JSONDecodeError escapes
`classify_paper` instead of being downgraded to a parse-error result. -/
theorem classify_parse_escape_cex :
    (classify_paper (List.replicate 5000 'a')
        (fun _ => .ok (str "x\x7boops\x7d"))).1 = .error .jsonDecode := by
  have hlt : ¬ (List.replicate 5000 'a' : Str).length < MIN_CHARS := by
    rw [List.length_replicate]
    norm_num [MIN_CHARS]
  simp only [classify_paper, if_neg hlt]
  rfl

/-- Claim C1 amended: for every agent response string, classify_paper's
parse step returns a result without raising exactly when the parsed JSON
value — obtained directly, or from the substring between the first brace
and the last brace when direct parsing fails — is an object carrying the
is_real_world_application key, or when direct parsing fails and no brace
pair exists at all (in which case the result is
is_real_world_application=false with a reason prefixed "parse error: " plus
a 200-character snippet of the raw response).  In every other case an
exception escapes the classify call, caught only by the per-item handler of
the batch classify stage: a JSONDecodeError when the brace-extracted
substring is itself invalid JSON, a KeyError when the parsed object lacks
the key, and a TypeError when the parsed value is not an object. -/
theorem classify_parse_fallback :
    (∀ raw kvs rwa, jsonLoads raw = .ok (.obj kvs) →
        objGet kvs (str "is_real_world_application") = some rwa →
        parseResp raw = .ok ⟨rwa, (objGet kvs (str "reason")).getD (.str [])⟩) ∧
    (∀ raw kvs, jsonLoads raw = .ok (.obj kvs) →
        objGet kvs (str "is_real_world_application") = none →
        parseResp raw = .error .keyError) ∧
    (∀ raw v, jsonLoads raw = .ok v → (∀ kvs, v ≠ .obj kvs) →
        parseResp raw = .error .typeError) ∧
    (∀ raw, jsonLoads raw = .error () →
        ¬(pyFind '{' raw ≠ -1 ∧ pyRfind '}' raw + 1 > pyFind '{' raw) →
        parseResp raw =
          .ok ⟨.bool false, .str (str "parse error: " ++ raw.take 200)⟩) ∧
    (∀ raw kvs rwa, jsonLoads raw = .error () →
        (pyFind '{' raw ≠ -1 ∧ pyRfind '}' raw + 1 > pyFind '{' raw) →
        jsonLoads ((raw.take (pyRfind '}' raw + 1).toNat).drop (pyFind '{' raw).toNat) =
          .ok (.obj kvs) →
        objGet kvs (str "is_real_world_application") = some rwa →
        parseResp raw = .ok ⟨rwa, (objGet kvs (str "reason")).getD (.str [])⟩) ∧
    (∀ raw kvs, jsonLoads raw = .error () →
        (pyFind '{' raw ≠ -1 ∧ pyRfind '}' raw + 1 > pyFind '{' raw) →
        jsonLoads ((raw.take (pyRfind '}' raw + 1).toNat).drop (pyFind '{' raw).toNat) =
          .ok (.obj kvs) →
        objGet kvs (str "is_real_world_application") = none →
        parseResp raw = .error .keyError) ∧
    (∀ raw v, jsonLoads raw = .error () →
        (pyFind '{' raw ≠ -1 ∧ pyRfind '}' raw + 1 > pyFind '{' raw) →
        jsonLoads ((raw.take (pyRfind '}' raw + 1).toNat).drop (pyFind '{' raw).toNat) =
          .ok v →
        (∀ kvs, v ≠ .obj kvs) →
        parseResp raw = .error .typeError) ∧
    (∀ raw, jsonLoads raw = .error () →
        (pyFind '{' raw ≠ -1 ∧ pyRfind '}' raw + 1 > pyFind '{' raw) →
        jsonLoads ((raw.take (pyRfind '}' raw + 1).toNat).drop (pyFind '{' raw).toNat) =
          .error () →
        parseResp raw = .error .jsonDecode) := by
  refine ⟨?_, ?_, ?_, ?_, ?_, ?_, ?_, ?_⟩
  · intro raw kvs rwa h1 h2
    simp [parseResp, h1, h2]
  · intro raw kvs h1 h2
    simp [parseResp, h1, h2]
  · intro raw v h1 h2
    cases v with
    | obj kvs => exact absurd rfl (h2 kvs)
    | null => simp [parseResp, h1]
    | bool b => simp [parseResp, h1]
    | num n => simp [parseResp, h1]
    | str s => simp [parseResp, h1]
    | arr xs => simp [parseResp, h1]
  · intro raw h1 h2
    simp [parseResp, h1, h2, parseErrorDict, objGet]
    rw [if_neg (by decide : ¬ str "is_real_world_application" = str "reason")]
    rfl
  · intro raw kvs rwa h1 h2 h3 h4
    simp [parseResp, h1, h2, h3, h4]
  · intro raw kvs h1 h2 h3 h4
    simp [parseResp, h1, h2, h3, h4]
  · intro raw v h1 h2 h3 h4
    cases v with
    | obj kvs => exact absurd rfl (h4 kvs)
    | null => simp [parseResp, h1, h2, h3]
    | bool b => simp [parseResp, h1, h2, h3]
    | num n => simp [parseResp, h1, h2, h3]
    | str s => simp [parseResp, h1, h2, h3]
    | arr xs => simp [parseResp, h1, h2, h3]
  · intro raw h1 h2 h3
    simp [parseResp, h1, h2, h3]

/-- Witness for the amended C1: a directly-parsed object lacking the key
yields the escaping KeyError; a braceless response yields the parse-error
result; a response whose brace-extract is invalid JSON yields the escaping
JSONDecodeError. -/
theorem classify_parse_fallback_witness :
    parseResp (str "\x7b\"a\": 1\x7d") = .error .keyError ∧
    parseResp (str "nope") =
      .ok ⟨.bool false, .str (str "parse error: " ++ (str "nope").take 200)⟩ ∧
    parseResp (str "x\x7boops\x7d") = .error .jsonDecode := by
  have h := classify_parse_fallback
  refine ⟨h.2.1 (str "\x7b\"a\": 1\x7d") [(str "a", .num (str "1"))] rfl rfl, ?_, ?_⟩
  · exact h.2.2.2.1 (str "nope") rfl (by decide)
  · exact h.2.2.2.2.2.2.2 (str "x\x7boops\x7d") rfl (by decide) rfl

/-- Python string order is total. -/
theorem strLe_total (s t : Str) : (strLe s t || strLe t s) = true := by
  induction s generalizing t with
  | nil => simp [strLe]
  | cons a as ih =>
    cases t with
    | nil => simp [strLe]
    | cons b bs =>
      simp only [strLe]
      rcases lt_trichotomy a b with h | h | h
      · simp [h, not_lt.mpr h.le]
      · subst h
        simpa [lt_irrefl] using ih bs
      · simp [h, not_lt.mpr h.le]

/-- Python string order is transitive. -/
theorem strLe_trans (s t u : Str) (h1 : strLe s t = true) (h2 : strLe t u = true) :
    strLe s u = true := by
  induction s generalizing t u with
  | nil => simp [strLe]
  | cons a as ih =>
    cases t with
    | nil => simp [strLe] at h1
    | cons b bs =>
      cases u with
      | nil => simp [strLe] at h2
      | cons c cs =>
        simp only [strLe] at h1 h2 ⊢
        rcases lt_trichotomy a b with hab | hab | hab
        · rcases lt_trichotomy b c with hbc | hbc | hbc
          · simp [lt_trans hab hbc]
          · subst hbc
            simp [hab]
          · simp [not_lt.mpr hbc.le, hbc] at h2
        · subst hab
          rcases lt_trichotomy a c with hac | hac | hac
          · simp [hac]
          · subst hac
            simp only [lt_irrefl, if_false] at h1 h2 ⊢
            exact ih bs cs h1 h2
          · simp [not_lt.mpr hac.le, hac] at h2
        · simp [not_lt.mpr hab.le, hab] at h1

theorem nameLe_trans (a b c : Str × Str) (h1 : nameLe a b = true)
    (h2 : nameLe b c = true) : nameLe a c = true :=
  strLe_trans a.1 b.1 c.1 h1 h2

theorem nameLe_total (a b : Str × Str) : (nameLe a b || nameLe b a) = true :=
  strLe_total a.1 b.1

/-- Each batch entry carries the filename it was built from, in both the
success and the caught-exception branch. -/
theorem entryFor_file (ask : Str → Except PyErr Str) (n c : Str) :
    (entryFor ask n c).file = n := by
  unfold entryFor
  cases (classify_paper c ask).1 <;> rfl

/-- Claim C7: `classify_all_papers` produces exactly one result per cached
text file — the result list maps one-to-one onto the sorted `.md` filenames,
which are lexicographically ordered and a permutation of the directory's
`.md` files; a per-item exception becomes a negative entry with an error
reason rather than a dropped record; and the complete list is written to the
ledger, fully overwriting any previous ledger contents. -/
theorem classify_all_shape (files : List (Str × Str)) (ask : Str → Except PyErr Str)
    (old : List CEntry) :
    ((classify_all_papers files ask old).1).length = (mdFilesOf files).length ∧
    ((classify_all_papers files ask old).1).map (fun e => e.file) =
      (mdFilesOf files).map (fun p => p.1) ∧
    List.Pairwise (fun a b : Str × Str => strLe a.1 b.1 = true) (mdFilesOf files) ∧
    (mdFilesOf files).Perm (files.filter (fun p => endsWithStr p.1 (str ".md"))) ∧
    (∀ name content e, (classify_paper content ask).1 = .error e →
        entryFor ask name content =
          ⟨name, .bool false, .str (str "error: " ++ errStr e)⟩) ∧
    (∀ old2, (classify_all_papers files ask old2).2 =
        (classify_all_papers files ask old).1) := by
  refine ⟨by simp [classify_all_papers], ?_, ?_, ?_, ?_, ?_⟩
  · simp only [classify_all_papers, List.map_map]
    exact List.map_congr_left (fun p _ => entryFor_file ask p.1 p.2)
  · exact List.sorted_mergeSort nameLe_trans nameLe_total _
  · exact List.mergeSort_perm _ _
  · intro name content e he
    simp [entryFor, he]
  · intro old2
    rfl

/-- Witness for C7 on a concrete directory (two `.md` files out of order plus
one non-`.md` file) and a failing classify outcome. -/
theorem classify_all_shape_witness :
    ((classify_all_papers [(str "b.md", str "x"), (str "a.md", str "y"), (str "n.txt", str "z")]
        (fun _ => .ok (str "resp")) []).1).map (fun e => e.file) =
      (mdFilesOf [(str "b.md", str "x"), (str "a.md", str "y"), (str "n.txt", str "z")]).map
        (fun p => p.1) ∧
    entryFor (fun _ => .error (.agentError (str "boom"))) (str "a.md")
        (List.replicate 5000 'a') =
      ⟨str "a.md", .bool false, .str (str "error: boom")⟩ := by
  have h := classify_all_shape
    [(str "b.md", str "x"), (str "a.md", str "y"), (str "n.txt", str "z")]
    (fun _ => .ok (str "resp")) []
  have h2 := classify_all_shape [] (fun _ => .error (.agentError (str "boom"))) []
  refine ⟨h.2.1, h2.2.2.2.2.1 (str "a.md") (List.replicate 5000 'a')
    (.agentError (str "boom")) ?_⟩
  have hlt : ¬ (List.replicate 5000 'a' : Str).length < MIN_CHARS := by
    rw [List.length_replicate]
    norm_num [MIN_CHARS]
  simp only [classify_paper, if_neg hlt]

/-- Writing one path leaves other paths unchanged. -/
theorem fsGet_fsSet_ne (fs : Fs) (k k2 : Str × Str) (v : Str) (h : k2 ≠ k) :
    fsGet (fsSet fs k2 v) k = fsGet fs k := by
  simp [fsSet, fsGet, h]

/-- A just-written path exists. -/
theorem fsMem_fsSet_self (fs : Fs) (k : Str × Str) (v : Str) :
    fsMem (fsSet fs k v) k = true := by
  simp [fsMem, fsSet, fsGet]

/-- Writing preserves existence of any path. -/
theorem fsMem_fsSet (fs : Fs) (k k2 : Str × Str) (v : Str) (h : fsMem fs k = true) :
    fsMem (fsSet fs k2 v) k = true := by
  by_cases hk : k2 = k
  · subst hk
    exact fsMem_fsSet_self fs k2 v
  · unfold fsMem at h ⊢
    rw [fsGet_fsSet_ne fs k k2 v hk]
    exact h

/-- Existing output: the loop body skips, calls no agent, appends the path. -/
theorem stepGen_skip (cfg : GenCfg) (dec : Str → Option Article) (fetch : Str → Str)
    (ag : Article → Str → Nat → Str) (fs : Fs) (f : Str) (i : Nat)
    (h : fsMem fs (cfg.output_dir, f) = true) :
    stepGen cfg dec fetch ag fs f i = (fs, 0, some (cfg.output_dir, f)) := by
  simp [stepGen, h]

/-- Blocked entry without existing output: the loop body does nothing. -/
theorem stepGen_blocked (cfg : GenCfg) (dec : Str → Option Article) (fetch : Str → Str)
    (ag : Article → Str → Nat → Str) (fs : Fs) (f : Str) (i : Nat)
    (h : fsMem fs (cfg.output_dir, f) = false)
    (hb : genBlocked cfg dec fetch fs f) :
    stepGen cfg dec fetch ag fs f i = (fs, 0, none) := by
  rcases hb with hc | ⟨c, hc, hd⟩ | ⟨c, a, e, hc, hd, hr⟩
  · simp [stepGen, h, hc]
  · simp [stepGen, h, hc, hd]
  · simp [stepGen, h, hc, hd, hr]

/-- Complete case analysis of one generate-loop iteration. -/
theorem stepGen_cases (cfg : GenCfg) (dec : Str → Option Article) (fetch : Str → Str)
    (ag : Article → Str → Nat → Str) (fs : Fs) (f : Str) (i : Nat) :
    (fsMem fs (cfg.output_dir, f) = true ∧
      stepGen cfg dec fetch ag fs f i = (fs, 0, some (cfg.output_dir, f))) ∨
    (fsMem fs (cfg.output_dir, f) = false ∧ genBlocked cfg dec fetch fs f ∧
      stepGen cfg dec fetch ag fs f i = (fs, 0, none)) ∨
    (fsMem fs (cfg.output_dir, f) = false ∧
      ∃ content article text,
        fsGet fs (cfg.articles_dir, pathStem f ++ str ".json") = some content ∧
        dec content = some article ∧
        (resolve_article_text article (some cfg.md_dir) fs fetch).1 = .ok text ∧
        stepGen cfg dec fetch ag fs f i =
          (fsSet fs (cfg.output_dir, f) (ag article text i), 1,
            some (cfg.output_dir, f))) := by
  cases hm : fsMem fs (cfg.output_dir, f) with
  | true => exact Or.inl ⟨rfl, stepGen_skip cfg dec fetch ag fs f i hm⟩
  | false =>
    cases hc : fsGet fs (cfg.articles_dir, pathStem f ++ str ".json") with
    | none =>
      refine Or.inr (Or.inl ⟨rfl, Or.inl hc, ?_⟩)
      simp [stepGen, hm, hc]
    | some content =>
      cases hd : dec content with
      | none =>
        refine Or.inr (Or.inl ⟨rfl, Or.inr (Or.inl ⟨content, hc, hd⟩), ?_⟩)
        simp [stepGen, hm, hc, hd]
      | some article =>
        cases hr : (resolve_article_text article (some cfg.md_dir) fs fetch).1 with
        | error e =>
          refine Or.inr (Or.inl ⟨rfl, Or.inr (Or.inr ⟨content, article, e, hc, hd, hr⟩), ?_⟩)
          simp [stepGen, hm, hc, hd, hr]
        | ok text =>
          refine Or.inr (Or.inr ⟨rfl, content, article, text, rfl, hd, hr, ?_⟩)
          simp [stepGen, hm, hc, hd, hr]

/-- One iteration never deletes files. -/
theorem stepGen_mem_mono (cfg : GenCfg) (dec : Str → Option Article) (fetch : Str → Str)
    (ag : Article → Str → Nat → Str) (fs : Fs) (f : Str) (i : Nat) (k : Str × Str)
    (h : fsMem fs k = true) : fsMem (stepGen cfg dec fetch ag fs f i).1 k = true := by
  rcases stepGen_cases cfg dec fetch ag fs f i with ⟨_, he⟩ | ⟨_, _, he⟩ |
    ⟨_, c, a, t, _, _, _, he⟩ <;> rw [he]
  · exact h
  · exact h
  · exact fsMem_fsSet fs k _ _ h

/-- One iteration writes only under the output directory. -/
theorem stepGen_get_off (cfg : GenCfg) (dec : Str → Option Article) (fetch : Str → Str)
    (ag : Article → Str → Nat → Str) (fs : Fs) (f : Str) (i : Nat) (k : Str × Str)
    (hk : k.1 ≠ cfg.output_dir) :
    fsGet (stepGen cfg dec fetch ag fs f i).1 k = fsGet fs k := by
  rcases stepGen_cases cfg dec fetch ag fs f i with ⟨_, he⟩ | ⟨_, _, he⟩ |
    ⟨_, c, a, t, _, _, _, he⟩ <;> rw [he]
  refine fsGet_fsSet_ne fs k _ _ ?_
  intro heq
  apply hk
  rw [← heq]

/-- The generate loop never deletes files. -/
theorem goGen_mem_mono (cfg : GenCfg) (dec : Str → Option Article) (fetch : Str → Str)
    (ag : Article → Str → Nat → Str) :
    ∀ (l : List Str) (i : Nat) (fs : Fs) (k : Str × Str), fsMem fs k = true →
      fsMem (goGen cfg dec fetch ag l i fs).1 k = true := by
  intro l
  induction l with
  | nil => intro i fs k h; exact h
  | cons f rest ih =>
    intro i fs k h
    show fsMem (goGen cfg dec fetch ag rest (i + 1)
      (stepGen cfg dec fetch ag fs f i).1).1 k = true
    exact ih (i + 1) _ k (stepGen_mem_mono cfg dec fetch ag fs f i k h)

/-- The generate loop writes only under the output directory. -/
theorem goGen_get_off (cfg : GenCfg) (dec : Str → Option Article) (fetch : Str → Str)
    (ag : Article → Str → Nat → Str) :
    ∀ (l : List Str) (i : Nat) (fs : Fs) (k : Str × Str), k.1 ≠ cfg.output_dir →
      fsGet (goGen cfg dec fetch ag l i fs).1 k = fsGet fs k := by
  intro l
  induction l with
  | nil => intro i fs k _; rfl
  | cons f rest ih =>
    intro i fs k hk
    show fsGet (goGen cfg dec fetch ag rest (i + 1)
      (stepGen cfg dec fetch ag fs f i).1).1 k = fsGet fs k
    rw [ih (i + 1) _ k hk]
    exact stepGen_get_off cfg dec fetch ag fs f i k hk

/-- Resolution depends on the filesystem only through the cache directory. -/
theorem resolve_congr (a : Article) (d : Str) (fs fs2 : Fs) (fetch : Str → Str)
    (h : ∀ name, fsGet fs (d, name) = fsGet fs2 (d, name)) :
    resolve_article_text a (some d) fs fetch =
      resolve_article_text a (some d) fs2 fetch := by
  unfold resolve_article_text
  cases hu : a.pdf_url with
  | none => rfl
  | some u =>
    dsimp only
    rw [h (cachedName u)]

/-- Blockedness is stable under changes confined to the output directory. -/
theorem genBlocked_congr (cfg : GenCfg) (dec : Str → Option Article)
    (fetch : Str → Str) (fs fs2 : Fs) (f : Str)
    (hmd : cfg.output_dir ≠ cfg.md_dir) (hart : cfg.output_dir ≠ cfg.articles_dir)
    (hoff : ∀ k : Str × Str, k.1 ≠ cfg.output_dir → fsGet fs2 k = fsGet fs k)
    (hb : genBlocked cfg dec fetch fs f) : genBlocked cfg dec fetch fs2 f := by
  have hres : ∀ a : Article,
      resolve_article_text a (some cfg.md_dir) fs2 fetch =
        resolve_article_text a (some cfg.md_dir) fs fetch :=
    fun a => resolve_congr a cfg.md_dir fs2 fs fetch
      (fun name => hoff (cfg.md_dir, name) (Ne.symm hmd))
  have hartk := hoff (cfg.articles_dir, pathStem f ++ str ".json") (Ne.symm hart)
  unfold genBlocked at hb ⊢
  simp only [hartk, hres]
  exact hb

/-- A blocked filename with no pre-existing output is never written during the run. -/
theorem goGen_blocked_not_written (cfg : GenCfg) (dec : Str → Option Article)
    (fetch : Str → Str) (ag : Article → Str → Nat → Str)
    (hmd : cfg.output_dir ≠ cfg.md_dir) (hart : cfg.output_dir ≠ cfg.articles_dir) :
    ∀ (l : List Str) (i : Nat) (fs : Fs) (f : Str),
      genBlocked cfg dec fetch fs f → fsMem fs (cfg.output_dir, f) = false →
      fsMem (goGen cfg dec fetch ag l i fs).1 (cfg.output_dir, f) = false := by
  intro l
  induction l with
  | nil => intro i fs f _ hm; exact hm
  | cons g rest ih =>
    intro i fs f hb hm
    show fsMem (goGen cfg dec fetch ag rest (i + 1)
      (stepGen cfg dec fetch ag fs g i).1).1 (cfg.output_dir, f) = false
    rcases stepGen_cases cfg dec fetch ag fs g i with ⟨_, he⟩ | ⟨_, _, he⟩ |
      ⟨hmg, c, a, t, hc, hd, hr, he⟩
    · rw [he]
      exact ih (i + 1) fs f hb hm
    · rw [he]
      exact ih (i + 1) fs f hb hm
    · rw [he]
      by_cases hgf : g = f
      · subst hgf
        exfalso
        rcases hb with hcb | ⟨c2, hcb, hdb⟩ | ⟨c2, a2, e2, hcb, hdb, hrb⟩
        · rw [hcb] at hc
          cases hc
        · rw [hcb] at hc
          have hcc : c2 = c := by injection hc
          rw [hcc] at hdb
          rw [hdb] at hd
          cases hd
        · rw [hcb] at hc
          have hcc : c2 = c := by injection hc
          rw [hcc] at hdb
          rw [hdb] at hd
          have haa : a2 = a := by injection hd
          rw [haa] at hrb
          rw [hrb] at hr
          cases hr
      · have hkey : (cfg.output_dir, g) ≠ (cfg.output_dir, f) := by
          intro hh
          exact hgf (congrArg Prod.snd hh)
        have hm2 : fsMem (fsSet fs (cfg.output_dir, g) (ag a t i))
            (cfg.output_dir, f) = false := by
          unfold fsMem
          rw [fsGet_fsSet_ne fs _ _ _ hkey]
          exact hm
        have hoff : ∀ k : Str × Str, k.1 ≠ cfg.output_dir →
            fsGet (fsSet fs (cfg.output_dir, g) (ag a t i)) k = fsGet fs k := by
          intro k hk
          refine fsGet_fsSet_ne fs k _ _ ?_
          intro heq
          apply hk
          rw [← heq]
        have hb2 := genBlocked_congr cfg dec fetch fs
          (fsSet fs (cfg.output_dir, g) (ag a t i)) f hmd hart hoff hb
        exact ih (i + 1) _ f hb2 hm2

/-- Re-running the generate loop from its own final state changes nothing, calls no agent, and returns the same paths. -/
theorem goGen_twice (cfg : GenCfg) (dec : Str → Option Article) (fetch : Str → Str)
    (ag : Article → Str → Nat → Str)
    (hmd : cfg.output_dir ≠ cfg.md_dir) (hart : cfg.output_dir ≠ cfg.articles_dir) :
    ∀ (l : List Str) (i : Nat) (fs : Fs),
      goGen cfg dec fetch ag l i (goGen cfg dec fetch ag l i fs).1 =
        ((goGen cfg dec fetch ag l i fs).1, 0, (goGen cfg dec fetch ag l i fs).2.2) := by
  intro l
  induction l with
  | nil => intro i fs; rfl
  | cons f rest ih =>
    intro i fs
    rcases stepGen_cases cfg dec fetch ag fs f i with ⟨hmem, he⟩ | ⟨hmem, hb, he⟩ |
      ⟨hmem, c, a, t, hc, hd, hr, he⟩
    · have hG : fsMem (goGen cfg dec fetch ag rest (i + 1) fs).1
          (cfg.output_dir, f) = true :=
        goGen_mem_mono cfg dec fetch ag rest (i + 1) fs _ hmem
      have hstep2 := stepGen_skip cfg dec fetch ag
        (goGen cfg dec fetch ag rest (i + 1) fs).1 f i hG
      have hih := ih (i + 1) fs
      simp only [goGen, he, hstep2, hih]
    · have hoff : ∀ k : Str × Str, k.1 ≠ cfg.output_dir →
          fsGet (goGen cfg dec fetch ag rest (i + 1) fs).1 k = fsGet fs k :=
        fun k hk => goGen_get_off cfg dec fetch ag rest (i + 1) fs k hk
      have hb2 := genBlocked_congr cfg dec fetch fs
        (goGen cfg dec fetch ag rest (i + 1) fs).1 f hmd hart hoff hb
      have hm2 := goGen_blocked_not_written cfg dec fetch ag hmd hart rest (i + 1)
        fs f hb hmem
      have hstep2 := stepGen_blocked cfg dec fetch ag
        (goGen cfg dec fetch ag rest (i + 1) fs).1 f i hm2 hb2
      have hih := ih (i + 1) fs
      simp only [goGen, he, hstep2, hih]
    · have hmem1 : fsMem (fsSet fs (cfg.output_dir, f) (ag a t i))
          (cfg.output_dir, f) = true := fsMem_fsSet_self fs _ _
      have hG : fsMem (goGen cfg dec fetch ag rest (i + 1)
          (fsSet fs (cfg.output_dir, f) (ag a t i))).1 (cfg.output_dir, f) = true :=
        goGen_mem_mono cfg dec fetch ag rest (i + 1) _ _ hmem1
      have hstep2 := stepGen_skip cfg dec fetch ag
        (goGen cfg dec fetch ag rest (i + 1)
          (fsSet fs (cfg.output_dir, f) (ag a t i))).1 f i hG
      have hih := ih (i + 1) (fsSet fs (cfg.output_dir, f) (ag a t i))
      simp only [goGen, he, hstep2, hih]

/-- A listed filename whose output pre-exists appears in the returned paths. -/
theorem goGen_mem_out (cfg : GenCfg) (dec : Str → Option Article) (fetch : Str → Str)
    (ag : Article → Str → Nat → Str) :
    ∀ (l : List Str) (i : Nat) (fs : Fs) (f : Str), f ∈ l →
      fsMem fs (cfg.output_dir, f) = true →
      (cfg.output_dir, f) ∈ (goGen cfg dec fetch ag l i fs).2.2 := by
  intro l
  induction l with
  | nil => intro i fs f hf _; cases hf
  | cons g rest ih =>
    intro i fs f hf hm
    rcases List.mem_cons.mp hf with hfg | hfr
    · subst hfg
      have he := stepGen_skip cfg dec fetch ag fs f i hm
      simp only [goGen, he]
      exact List.mem_cons_self _ _
    · have hm1 : fsMem (stepGen cfg dec fetch ag fs g i).1 (cfg.output_dir, f) = true :=
        stepGen_mem_mono cfg dec fetch ag fs g i _ hm
      have hih := ih (i + 1) (stepGen cfg dec fetch ag fs g i).1 f hfr hm1
      simp only [goGen]
      cases ho : (stepGen cfg dec fetch ag fs g i).2.2 with
      | none => simpa [ho] using hih
      | some k => simp only [ho]; exact List.mem_cons_of_mem _ hih

/-- Claim C3: a positively-classified ledger entry whose output file already
exists is skipped with zero agent calls and its path still appears in the
returned list; consequently (for distinct output, text-cache and
article-metadata directories) a second run of the generate batch over an
unchanged ledger performs zero agent calls, leaves the filesystem
byte-identical, and returns the same list of paths. -/
theorem generate_idempotent (cfg : GenCfg) (dec : Str → Option Article)
    (fetch : Str → Str) (ag : Article → Str → Nat → Str)
    (entries : List GenEntry) (fs : Fs)
    (hmd : cfg.output_dir ≠ cfg.md_dir) (hart : cfg.output_dir ≠ cfg.articles_dir) :
    (∀ (fs2 : Fs) (f : Str) (i : Nat), fsMem fs2 (cfg.output_dir, f) = true →
        stepGen cfg dec fetch ag fs2 f i = (fs2, 0, some (cfg.output_dir, f))) ∧
    (∀ e ∈ entries, e.is_real_world_application = true →
        fsMem fs (cfg.output_dir, e.file) = true →
        (cfg.output_dir, e.file) ∈
          (generate_all_examples cfg dec fetch ag entries fs).2.2) ∧
    (generate_all_examples cfg dec fetch ag entries
        ((generate_all_examples cfg dec fetch ag entries fs).1) =
      ((generate_all_examples cfg dec fetch ag entries fs).1, 0,
        (generate_all_examples cfg dec fetch ag entries fs).2.2)) := by
  refine ⟨fun fs2 f i h => stepGen_skip cfg dec fetch ag fs2 f i h, ?_, ?_⟩
  · intro e he hrw hm
    unfold generate_all_examples
    apply goGen_mem_out
    · exact List.mem_map_of_mem _ (List.mem_filter.mpr ⟨he, hrw⟩)
    · exact hm
  · unfold generate_all_examples
    exact goGen_twice cfg dec fetch ag hmd hart _ 1 fs

/-- Witness for C3 on the concrete demo pipeline: a skip step on an existing
output, and the second run of a three-entry batch (one generated, one with a
missing article, one negatively classified). -/
theorem generate_idempotent_witness :
    stepGen demoCfg demoDec (fun _ => str "F") (fun _ _ _ => str "G")
        [((str "out", str "p.md"), str "X")] (str "p.md") 1 =
      ([((str "out", str "p.md"), str "X")], 0, some (str "out", str "p.md")) ∧
    generate_all_examples demoCfg demoDec (fun _ => str "F") (fun _ _ _ => str "G")
        demoEntries
        ((generate_all_examples demoCfg demoDec (fun _ => str "F")
          (fun _ _ _ => str "G") demoEntries demoFs).1) =
      ((generate_all_examples demoCfg demoDec (fun _ => str "F")
          (fun _ _ _ => str "G") demoEntries demoFs).1, 0,
        (generate_all_examples demoCfg demoDec (fun _ => str "F")
          (fun _ _ _ => str "G") demoEntries demoFs).2.2) := by
  have h := generate_idempotent demoCfg demoDec (fun _ => str "F")
    (fun _ _ _ => str "G") demoEntries demoFs (by decide) (by decide)
  exact ⟨h.1 [((str "out", str "p.md"), str "X")] (str "p.md") 1 (by decide), h.2.2⟩
